import Mathlib

/-!
Verification of the batch submitter/confirmer of the performance-test
repository.  The definitions below are shallow embeddings of the JavaScript
functions in `src/unnamed/part_017` (`runBatchTest`, `retryWithBackoff`),
`src/unnamed/part_018` / `src/unnamed/part_012` (the Sepolia/optimized
variants with batch-size clamping) and
`src/starknet-test-js/performanceTest_madara_v081.js` (its read/write split).

Number representation: JavaScript numbers are modelled as `ℚ` (ratios such as
`readRatio` and STRK balances) and `ℕ` (counts, indices, nonces, tx hashes).
Remote-ledger behaviour (RPC results, error classes, the random comparator
passed to `Array.prototype.sort`, and the random jitter) is supplied through
oracle functions, so every theorem quantifies over all remote behaviours.
-/

namespace PerfTest

/-! ## Read/write split

`part_017` line 240-241 (and identically `part_012`, `part_018`):
  numWrites = Math.floor(batchSize * (1 - readRatio));
  numReads  = batchSize - numWrites;
-/

def numWritesOf (batchSize : ℕ) (readRatio : ℚ) : ℕ :=
  (⌊(batchSize : ℚ) * (1 - readRatio)⌋).toNat

def numReadsOf (batchSize : ℕ) (readRatio : ℚ) : ℕ :=
  batchSize - numWritesOf batchSize readRatio

/-! `performanceTest_madara_v081.js` line 203-204 (`main`):
  const numReads  = Math.max(1, Math.floor(batchSize * readRatio));
  const numWrites = Math.max(1, Math.floor(batchSize * (1 - readRatio)));
-/

def v081NumReads (batchSize : ℕ) (readRatio : ℚ) : ℕ :=
  max 1 (⌊(batchSize : ℚ) * readRatio⌋).toNat

def v081NumWrites (batchSize : ℕ) (readRatio : ℚ) : ℕ :=
  max 1 (⌊(batchSize : ℚ) * (1 - readRatio)⌋).toNat

lemma numWritesOf_le (batchSize : ℕ) (readRatio : ℚ) (h0 : 0 ≤ readRatio) :
    numWritesOf batchSize readRatio ≤ batchSize := by
  unfold numWritesOf
  have hmul : (batchSize : ℚ) * (1 - readRatio) ≤ (batchSize : ℚ) := by
    have h1 : (1 : ℚ) - readRatio ≤ 1 := by linarith
    calc (batchSize : ℚ) * (1 - readRatio) ≤ (batchSize : ℚ) * 1 :=
          mul_le_mul_of_nonneg_left h1 (by positivity)
      _ = (batchSize : ℚ) := mul_one _
  have hfl : ⌊(batchSize : ℚ) * (1 - readRatio)⌋ ≤ (batchSize : ℤ) := by
    have := Int.floor_le_floor hmul
    simpa using this
  omega

/-! ## Retry with exponential backoff

`part_017` lines 266-283 (`retryWithBackoff`), used for every read in blend
mode with `maxRetries = 3`, `baseDelay = 1000` ms:

  for (let attempt = 0; attempt < maxRetries; attempt++) {
    try { return await fn(); } catch (err) {
      if (isRateLimit && attempt < maxRetries - 1) {
        const delay = baseDelay * Math.pow(2, attempt) + Math.random() * 1000;
        await sleep(delay); continue;
      }
      throw err;
    }
  }

The outcome of the `attempt`-th invocation of `fn` is given by an oracle;
the `Math.random() * 1000` term is the `jitter` oracle.
-/

inductive ReadRes where
  | success (v : ℕ)
  | rateLimited
  | otherError
deriving DecidableEq

structure RetryOut where
  result : Except ReadRes ℕ
  calls : ℕ
  delays : List ℚ

def retryBranch (res : ReadRes) (retriesLeft attempt : ℕ) (rest : RetryOut)
    (jitter : ℕ → ℚ) (baseDelay : ℚ) : RetryOut :=
  match res with
  | .success v => ⟨.ok v, 1, []⟩
  | .otherError => ⟨.error .otherError, 1, []⟩
  | .rateLimited =>
    match retriesLeft with
    | 0 => ⟨.error .rateLimited, 1, []⟩
    | _ + 1 =>
      ⟨rest.result, rest.calls + 1,
        (baseDelay * 2 ^ attempt + jitter attempt) :: rest.delays⟩

def retryLoop (outcome : ℕ → ReadRes) (jitter : ℕ → ℚ) (baseDelay : ℚ) :
    ℕ → ℕ → RetryOut
  | 0, _ => ⟨.error .otherError, 0, []⟩
  | remaining + 1, attempt =>
    retryBranch (outcome attempt) remaining attempt
      (retryLoop outcome jitter baseDelay remaining (attempt + 1)) jitter baseDelay

def retryWithBackoff (outcome : ℕ → ReadRes) (jitter : ℕ → ℚ)
    (maxRetries : ℕ) (baseDelay : ℚ) : RetryOut :=
  retryLoop outcome jitter baseDelay maxRetries 0

lemma retryLoop_zero (outcome : ℕ → ReadRes) (jitter : ℕ → ℚ)
    (baseDelay : ℚ) (attempt : ℕ) :
    retryLoop outcome jitter baseDelay 0 attempt = ⟨.error .otherError, 0, []⟩ := rfl

lemma retryLoop_succ (outcome : ℕ → ReadRes) (jitter : ℕ → ℚ)
    (baseDelay : ℚ) (remaining attempt : ℕ) :
    retryLoop outcome jitter baseDelay (remaining + 1) attempt =
      retryBranch (outcome attempt) remaining attempt
        (retryLoop outcome jitter baseDelay remaining (attempt + 1)) jitter baseDelay := rfl

lemma retryLoop_calls_le (outcome : ℕ → ReadRes) (jitter : ℕ → ℚ)
    (baseDelay : ℚ) (remaining attempt : ℕ) :
    (retryLoop outcome jitter baseDelay remaining attempt).calls ≤ remaining := by
  induction remaining generalizing attempt with
  | zero => simp [retryLoop_zero]
  | succ r ih =>
    rw [retryLoop_succ]
    cases houtcome : outcome attempt with
    | success v => simp [retryBranch]
    | rateLimited =>
      cases r with
      | zero => simp [retryBranch]
      | succ r' =>
        have h := ih (attempt + 1)
        simp only [retryBranch]
        omega
    | otherError => simp [retryBranch]

lemma retryLoop_calls_pos (outcome : ℕ → ReadRes) (jitter : ℕ → ℚ)
    (baseDelay : ℚ) (remaining attempt : ℕ) (h : 1 ≤ remaining) :
    1 ≤ (retryLoop outcome jitter baseDelay remaining attempt).calls := by
  cases remaining with
  | zero => omega
  | succ r =>
    rw [retryLoop_succ]
    cases houtcome : outcome attempt with
    | success v => simp [retryBranch]
    | rateLimited =>
      cases r with
      | zero => simp [retryBranch]
      | succ r' => simp only [retryBranch]; omega
    | otherError => simp [retryBranch]

lemma retryLoop_delays (outcome : ℕ → ReadRes) (jitter : ℕ → ℚ)
    (baseDelay : ℚ) (remaining attempt : ℕ) :
    (retryLoop outcome jitter baseDelay remaining attempt).delays =
      (List.range ((retryLoop outcome jitter baseDelay remaining attempt).calls - 1)).map
        (fun i => baseDelay * 2 ^ (attempt + i) + jitter (attempt + i)) := by
  induction remaining generalizing attempt with
  | zero => simp [retryLoop_zero]
  | succ r ih =>
    rw [retryLoop_succ]
    cases houtcome : outcome attempt with
    | success v => simp [retryBranch]
    | rateLimited =>
      cases r with
      | zero => simp [retryBranch]
      | succ r' =>
        have hpos := retryLoop_calls_pos outcome jitter baseDelay (r' + 1) (attempt + 1) (by omega)
        simp only [retryBranch]
        rw [ih (attempt + 1)]
        have hc : (retryLoop outcome jitter baseDelay (r' + 1) (attempt + 1)).calls + 1 - 1 =
            ((retryLoop outcome jitter baseDelay (r' + 1) (attempt + 1)).calls - 1) + 1 := by
          omega
        rw [hc, List.range_succ_eq_map]
        simp only [List.map_cons, List.map_map, Nat.add_zero]
        refine congrArg₂ List.cons rfl ?_
        apply List.map_congr_left
        intro i hi
        simp only [Function.comp_apply]
        have h1 : attempt + 1 + i = attempt + (i + 1) := by omega
        rw [h1]
    | otherError => simp [retryBranch]

lemma retryLoop_all_rateLimited (outcome : ℕ → ReadRes) (jitter : ℕ → ℚ)
    (baseDelay : ℚ) (remaining attempt : ℕ) (h1 : 1 ≤ remaining)
    (hall : ∀ i, attempt ≤ i → i < attempt + remaining → outcome i = .rateLimited) :
    (retryLoop outcome jitter baseDelay remaining attempt).result = .error .rateLimited ∧
    (retryLoop outcome jitter baseDelay remaining attempt).calls = remaining := by
  induction remaining generalizing attempt with
  | zero => omega
  | succ r ih =>
    have houtcome : outcome attempt = .rateLimited := hall attempt le_rfl (by omega)
    rw [retryLoop_succ, houtcome]
    cases r with
    | zero => simp [retryBranch]
    | succ r' =>
      have hrest := ih (attempt + 1) (by omega) (fun i hi1 hi2 => hall i (by omega) (by omega))
      simp only [retryBranch]
      exact ⟨hrest.1, by omega⟩

/-! ## Blend-mode batch pipeline (`part_017`, `runBatchTest`, mode `blend`)

The pipeline (lines 145-651):
 1. filter accounts to those deployed (`checkAccountExists`),
    error if none remain;
 2. filter to accounts whose STRK balance is at least `MIN_BALANCE = 0.05`,
    error if none remain;
 3. split `batchSize` into `numWrites`/`numReads`, build the operation list
    and shuffle it with `opTypes.sort(() => Math.random() - 0.5)`;
 4. run each operation under a `p-limit` pool (all operations run even if
    one of them rejects): reads go through `retryWithBackoff`; a read whose
    retries are exhausted rethrows out of the task (lines 331-334); writes
    fetch a pending nonce and submit; a nonce conflict pushes the bundle
    onto `failedWrites`; a rate-limit error on a write rethrows (line 324);
    any other write error is logged and skipped (returns null);
 5. `await Promise.all(ops)` — if any task rethrew, `runBatchTest` itself
    rejects: the retry pass and the final summary never run;
 6. otherwise each entry of `failedWrites` is resubmitted exactly once with
    a freshly fetched nonce and the original `bundleCalls` (lines 341-359);
 7. the summary counts `writeTxHashes.length` successful writes and, in
    blend mode, reports `numReads` as the successful read count (line 598).

The engine sort with an inconsistent random comparator returns some
permutation of its input; it is modelled as insertion sort parameterised by
an arbitrary Boolean comparator supplied as an oracle.
-/

def MIN_BALANCE : ℚ := 1 / 20

lemma MIN_BALANCE_eq : MIN_BALANCE = ⟨1, 20, by decide, Nat.coprime_one_left 20⟩ := by
  unfold MIN_BALANCE
  rw [Rat.mk'_eq_divInt, Rat.divInt_eq_div]
  norm_num

inductive OpType where
  | read
  | write
deriving DecidableEq

def shuffledOps (cmp : OpType → OpType → Bool) (numReads numWrites : ℕ) : List OpType :=
  List.insertionSort (fun a b => cmp a b)
    (List.replicate numReads OpType.read ++ List.replicate numWrites OpType.write)

inductive WriteRes where
  | accepted (hash : ℕ)
  | nonceConflict
  | rateLimited
  | otherError
deriving DecidableEq

/-- Remote-ledger events produced by the batch itself (its reads, its nonce
fetches and its write submissions; the pre-phase balance checks are not
batch operations). -/
inductive Ev where
  | readCall (b : ℕ)
  | fetchNonce (b n : ℕ)
  | submitWrite (b : ℕ) (payload : List ℕ) (nonce : ℕ)
  | retryFetchNonce (i n : ℕ)
  | retrySubmitWrite (i : ℕ) (payload : List ℕ) (nonce : ℕ)
deriving DecidableEq

/-- All remote behaviour the blend pipeline can observe, as oracles:
`deployed`/`balance` drive the two pre-phase filters, `readOutcome b a` is
the outcome of the `a`-th attempt of read op `b`, `estimateOk`/
`pendingNonce`/`submit` drive a write op, and the `retry*` functions drive
the `failedWrites` pass (indexed by queue position).  `cmp` is the random
comparator passed to the shuffle. -/
structure BlendOracle where
  deployed : ℕ → Bool
  balance : ℕ → ℚ
  readOutcome : ℕ → ℕ → ReadRes
  estimateOk : ℕ → Bool
  pendingNonce : ℕ → ℕ
  submit : ℕ → WriteRes
  retryEstimateOk : ℕ → Bool
  retryNonce : ℕ → ℕ
  retrySubmit : ℕ → Option ℕ
  cmp : OpType → OpType → Bool

/-- `bundleCalls` built at lines 302-308: entry `j` writes value `idx + 1`
where `idx = sentCount * bundleSize + j`, skipped once `idx ≥ numWrites`. -/
def bundlePayload (numWrites bundleSize sent : ℕ) : List ℕ :=
  (List.range bundleSize).filterMap
    (fun j => if sent * bundleSize + j < numWrites then some (sent * bundleSize + j + 1) else none)

structure BlendState where
  hashes : List ℕ
  sent : ℕ
  fails : List (ℕ × List ℕ)
  fatal : Bool
  trace : List Ev
deriving DecidableEq

def initState : BlendState := ⟨[], 0, [], false, []⟩

def readStep (b : ℕ) (res : Except ReadRes ℕ) (st : BlendState) : BlendState :=
  match res with
  | .ok _ => { st with trace := st.trace ++ [.readCall b] }
  | .error _ => { st with fatal := true, trace := st.trace ++ [.readCall b] }

def writeStep (b : ℕ) (payload : List ℕ) (n : ℕ) (res : WriteRes) (st : BlendState) :
    BlendState :=
  let st' := { st with trace := st.trace ++ [.fetchNonce b n, .submitWrite b payload n] }
  match res with
  | .accepted h => { st' with hashes := st'.hashes ++ [h], sent := st'.sent + 1 }
  | .nonceConflict => { st' with fails := st'.fails ++ [(b, payload)] }
  | .rateLimited => { st' with fatal := true }
  | .otherError => st'

def stepOp (o : BlendOracle) (numWrites bundleSize : ℕ) (st : BlendState)
    (p : ℕ × OpType) : BlendState :=
  match p.2 with
  | .read => readStep p.1 (retryWithBackoff (o.readOutcome p.1) (fun _ => 0) 3 1000).result st
  | .write =>
    if o.estimateOk p.1 then
      writeStep p.1 (bundlePayload numWrites bundleSize st.sent) (o.pendingNonce p.1)
        (o.submit p.1) st
    else
      { st with fatal := true }

def opPhase (o : BlendOracle) (numWrites bundleSize : ℕ) (ops : List (ℕ × OpType)) :
    BlendState :=
  ops.foldl (stepOp o numWrites bundleSize) initState

def retryStep (o : BlendOracle) (acc : List ℕ × List Ev) (p : ℕ × (ℕ × List ℕ)) :
    List ℕ × List Ev :=
  if o.retryEstimateOk p.1 then
    let n := o.retryNonce p.1
    let tr := acc.2 ++ [.retryFetchNonce p.1 n, .retrySubmitWrite p.1 p.2.2 n]
    match o.retrySubmit p.1 with
    | some h => (acc.1 ++ [h], tr)
    | none => (acc.1, tr)
  else acc

def retryPhase (o : BlendOracle) (fails : List (ℕ × List ℕ)) : List ℕ × List Ev :=
  fails.enum.foldl (retryStep o) ([], [])

inductive BatchError where
  | noDeployedAccounts
  | noSufficientBalance
  | opFailed
deriving DecidableEq

structure BlendSummary where
  successfulWrites : ℕ
  successfulReads : ℕ
deriving DecidableEq

def blendState (o : BlendOracle) (numReads numWrites bundleSize : ℕ) : BlendState :=
  opPhase o numWrites bundleSize (shuffledOps o.cmp numReads numWrites).enum

def runBlendFrom (o : BlendOracle) (numReads numWrites bundleSize : ℕ) :
    Except BatchError BlendSummary × List Ev :=
  let st := blendState o numReads numWrites bundleSize
  if st.fatal then (.error .opFailed, st.trace)
  else
    let retr := retryPhase o st.fails
    (.ok ⟨(st.hashes ++ retr.1).length, numReads⟩, st.trace ++ retr.2)

def runBlend (accounts : List ℕ) (batchSize bundleSize : ℕ) (readRatio : ℚ)
    (o : BlendOracle) : Except BatchError BlendSummary × List Ev :=
  let deployedAccounts := accounts.filter o.deployed
  if deployedAccounts.isEmpty then (.error .noDeployedAccounts, [])
  else
    let sufficient := deployedAccounts.filter (fun a => decide (MIN_BALANCE ≤ o.balance a))
    if sufficient.isEmpty then (.error .noSufficientBalance, [])
    else
      runBlendFrom o (numReadsOf batchSize readRatio) (numWritesOf batchSize readRatio)
        bundleSize

/-! ## Claim C1: the read/write split -/

/-- C1, counterexample: the claim quantifies over every `batchSize` and
`readRatio` in `[0,1]` and also covers the split in
`performanceTest_madara_v081.js` (`main`, lines 203-204); there, at
`batchSize = 10`, `readRatio = 0`, the code attempts `max(1, floor(10*0)) = 1`
read and `max(1, floor(10*1)) = 10` writes, so `reads ≠ batchSize - writes`
and `reads + writes ≠ batchSize`. -/
theorem claim1_counterexample :
    v081NumReads 10 0 = 1 ∧ v081NumWrites 10 0 = 10 ∧
    v081NumReads 10 0 + v081NumWrites 10 0 ≠ 10 ∧
    v081NumReads 10 0 ≠ 10 - v081NumWrites 10 0 := by
  have hr : v081NumReads 10 0 = 1 := by
    unfold v081NumReads
    norm_num
  have hw : v081NumWrites 10 0 = 10 := by
    unfold v081NumWrites
    norm_num
    decide
  refine ⟨hr, hw, ?_, ?_⟩ <;> rw [hr, hw] <;> decide

/-- C1, amended: in `runBatchTest` of `part_017` (and the `part_012`/
`part_018` variants) the split satisfies
`writes = floor(batchSize * (1 - readRatio))` and
`reads = batchSize - writes`, hence `reads + writes = batchSize`, for every
positive `batchSize` and every `readRatio` in `[0,1]`; in particular
`batchSize = 10`, `readRatio = 0.2` gives 2 reads and 8 writes.  The
`performanceTest_madara_v081.js` variant instead uses
`max(1, floor(batchSize * readRatio))` reads and
`max(1, floor(batchSize * (1 - readRatio)))` writes, which does not always
sum to `batchSize`. -/
theorem claim1_amended (batchSize : ℕ) (readRatio : ℚ)
    (h0 : 0 ≤ readRatio) (h1 : readRatio ≤ 1) :
    (numWritesOf batchSize readRatio : ℤ) = ⌊(batchSize : ℚ) * (1 - readRatio)⌋ ∧
    numReadsOf batchSize readRatio + numWritesOf batchSize readRatio = batchSize ∧
    numReadsOf 10 (1/5) = 2 ∧ numWritesOf 10 (1/5) = 8 := by
  have hW : numWritesOf 10 (1/5) = 8 := by
    unfold numWritesOf
    norm_num
    decide
  refine ⟨?_, ?_, ?_, hW⟩
  · unfold numWritesOf
    have hx : (0 : ℚ) ≤ (batchSize : ℚ) * (1 - readRatio) := by
      have : (0 : ℚ) ≤ 1 - readRatio := by linarith
      positivity
    exact Int.toNat_of_nonneg (Int.floor_nonneg.mpr hx)
  · have := numWritesOf_le batchSize readRatio h0
    unfold numReadsOf
    omega
  · unfold numReadsOf
    rw [hW]

/-- C1, witness for the amended claim at `batchSize = 10`,
`readRatio = 0.2`. -/
theorem claim1_witness :
    numReadsOf 10 (1/5) + numWritesOf 10 (1/5) = 10 ∧
    numReadsOf 10 (1/5) = 2 ∧ numWritesOf 10 (1/5) = 8 := by
  obtain ⟨-, h2, h3, h4⟩ := claim1_amended 10 (1/5) (by norm_num) (by norm_num)
  exact ⟨h2, h3, h4⟩

/-! ## Claim C2: all accounts below the minimum balance -/

/-- C2: if every account in the pool is deployed but has balance below the
0.05 STRK threshold, `runBatchTest` throws the
`No accounts have sufficient balance` precondition error (line 223) before
any batch read or write is submitted: the remote-operation trace is empty. -/
theorem claim2_precondition (accounts : List ℕ) (batchSize bundleSize : ℕ)
    (readRatio : ℚ) (o : BlendOracle)
    (hne : accounts ≠ [])
    (hdep : ∀ a ∈ accounts, o.deployed a = true)
    (hbal : ∀ a ∈ accounts, o.balance a < MIN_BALANCE) :
    runBlend accounts batchSize bundleSize readRatio o =
      (.error .noSufficientBalance, []) := by
  unfold runBlend
  have hfil : accounts.filter o.deployed = accounts := List.filter_eq_self.mpr hdep
  rw [hfil]
  have hne' : accounts.isEmpty = false := by
    cases accounts with
    | nil => exact absurd rfl hne
    | cons a l => rfl
  have hsuf : accounts.filter (fun a => decide (MIN_BALANCE ≤ o.balance a)) = [] := by
    rw [List.filter_eq_nil_iff]
    intro a ha
    simpa using not_le.mpr (hbal a ha)
  simp [hne', hsuf]

def oracleC2 : BlendOracle where
  deployed := fun _ => true
  balance := fun _ => 0
  readOutcome := fun _ _ => .success 0
  estimateOk := fun _ => true
  pendingNonce := fun _ => 0
  submit := fun _ => .accepted 0
  retryEstimateOk := fun _ => true
  retryNonce := fun _ => 0
  retrySubmit := fun _ => some 0
  cmp := fun _ _ => true

/-- C2, witness: one deployed account of balance 0 aborts the batch with an
empty remote-operation trace. -/
theorem claim2_witness :
    runBlend [1] 10 1 (1/5) oracleC2 = (.error .noSufficientBalance, []) :=
  claim2_precondition [1] 10 1 (1/5) oracleC2 (by decide)
    (fun a _ => rfl)
    (fun a _ => by show (0 : ℚ) < MIN_BALANCE; rw [MIN_BALANCE_eq]; decide)

/-! ## Claim C3: read retry with exponential backoff -/

/-- C3: for any remote behaviour, a read is attempted at most 3 times (the
configured `maxRetries`); the sleep before re-attempt `attempt + 1` is
`baseDelay * 2 ^ attempt + jitter` with `baseDelay = 1000` ms; and when all
3 attempts are rate-limited the rate-limit error is propagated (the read
fails) after exactly 3 invocations and backoff delays
`1000 * 2^0 + jitter` and `1000 * 2^1 + jitter`. -/
theorem claim3_read_retry (outcome : ℕ → ReadRes) (jitter : ℕ → ℚ)
    (hall : ∀ a, a < 3 → outcome a = .rateLimited) :
    (∀ g : ℕ → ReadRes, (retryWithBackoff g jitter 3 1000).calls ≤ 3) ∧
    (∀ g : ℕ → ReadRes, (retryWithBackoff g jitter 3 1000).delays =
      (List.range ((retryWithBackoff g jitter 3 1000).calls - 1)).map
        (fun i => 1000 * 2 ^ i + jitter i)) ∧
    (retryWithBackoff outcome jitter 3 1000).calls = 3 ∧
    (retryWithBackoff outcome jitter 3 1000).result = .error .rateLimited ∧
    (retryWithBackoff outcome jitter 3 1000).delays =
      [1000 * 2 ^ 0 + jitter 0, 1000 * 2 ^ 1 + jitter 1] := by
  have hmain := retryLoop_all_rateLimited outcome jitter 1000 3 0 (by omega)
    (fun i hi1 hi2 => hall i (by omega))
  have hcalls : (retryWithBackoff outcome jitter 3 1000).calls = 3 := hmain.2
  refine ⟨fun g => retryLoop_calls_le g jitter 1000 3 0, ?_, hcalls, hmain.1, ?_⟩
  · intro g
    have h := retryLoop_delays g jitter 1000 3 0
    simpa using h
  · have h := retryLoop_delays outcome jitter 1000 3 0
    rw [retryWithBackoff] at hcalls ⊢
    rw [h, hcalls]
    simp [List.range_succ]

/-- C3, witness: the always-rate-limited read with zero jitter. -/
theorem claim3_witness :
    (retryWithBackoff (fun _ => ReadRes.rateLimited) (fun _ => (0 : ℚ)) 3 1000).calls = 3 ∧
    (retryWithBackoff (fun _ => ReadRes.rateLimited) (fun _ => (0 : ℚ)) 3 1000).result =
      .error .rateLimited :=
  ⟨(claim3_read_retry (fun _ => .rateLimited) (fun _ => 0) (fun _ _ => rfl)).2.2.1,
   (claim3_read_retry (fun _ => .rateLimited) (fun _ => 0) (fun _ _ => rfl)).2.2.2.1⟩

/-! ## Claim C9: the shuffled operation list is a permutation -/

/-- C9: for every random comparator and every `numReads`/`numWrites`, the
shuffled operation list of blend mode (lines 253-254) is a permutation of
`numReads` Read tags concatenated with `numWrites` Write tags: it contains
exactly `numReads` reads, exactly `numWrites` writes and nothing else. -/
theorem claim9_shuffle (cmp : OpType → OpType → Bool) (numReads numWrites : ℕ) :
    (shuffledOps cmp numReads numWrites).Perm
      (List.replicate numReads OpType.read ++ List.replicate numWrites OpType.write) ∧
    (shuffledOps cmp numReads numWrites).count OpType.read = numReads ∧
    (shuffledOps cmp numReads numWrites).count OpType.write = numWrites ∧
    (shuffledOps cmp numReads numWrites).length = numReads + numWrites := by
  have hperm : (shuffledOps cmp numReads numWrites).Perm
      (List.replicate numReads OpType.read ++ List.replicate numWrites OpType.write) :=
    List.perm_insertionSort _ _
  refine ⟨hperm, ?_, ?_, ?_⟩
  · rw [hperm.count_eq]
    simp [List.count_append, List.count_replicate]
  · rw [hperm.count_eq]
    simp [List.count_append, List.count_replicate]
  · rw [hperm.length_eq]
    simp

/-! ## Fold lemmas for the op phase and the retry pass -/

/-- A write op whose submission hits `Invalid transaction nonce`
(line 319-322): it is the only path that appends to `failedWrites`. -/
def conflicted (o : BlendOracle) (p : ℕ × OpType) : Bool :=
  p.2 == OpType.write && o.estimateOk p.1 && (o.submit p.1 == WriteRes.nonceConflict)

lemma foldl_fails_map (o : BlendOracle) (nW bS : ℕ) (ops : List (ℕ × OpType))
    (st : BlendState) :
    ((ops.foldl (stepOp o nW bS) st).fails).map Prod.fst =
      st.fails.map Prod.fst ++ (ops.filter (conflicted o)).map Prod.fst := by
  induction ops generalizing st with
  | nil => simp
  | cons p rest ih =>
    rw [List.foldl_cons, ih]
    cases p with
    | mk b ty =>
      cases ty with
      | read =>
        have hf : (stepOp o nW bS st (b, OpType.read)).fails = st.fails := by
          unfold stepOp readStep
          cases (retryWithBackoff (o.readOutcome b) (fun _ => 0) 3 1000).result <;> rfl
        have hc : conflicted o (b, OpType.read) = false := by
          unfold conflicted
          rfl
        rw [hf, List.filter_cons, hc]
        simp
      | write =>
        cases hest : o.estimateOk b with
        | false =>
          have hf : (stepOp o nW bS st (b, OpType.write)).fails = st.fails := by
            unfold stepOp
            simp [hest]
          have hc : conflicted o (b, OpType.write) = false := by
            unfold conflicted
            simp [hest]
          rw [hf, List.filter_cons, hc]
          simp
        | true =>
          cases hsub : o.submit b with
          | nonceConflict =>
            have hf : (stepOp o nW bS st (b, OpType.write)).fails =
                st.fails ++ [(b, bundlePayload nW bS st.sent)] := by
              unfold stepOp writeStep
              simp [hest, hsub]
            have hc : conflicted o (b, OpType.write) = true := by
              unfold conflicted
              simp [hest, hsub]
            rw [hf, List.filter_cons, hc]
            simp
          | accepted h =>
            have hf : (stepOp o nW bS st (b, OpType.write)).fails = st.fails := by
              unfold stepOp writeStep
              simp [hest, hsub]
            have hc : conflicted o (b, OpType.write) = false := by
              unfold conflicted
              simp [hest, hsub]
            rw [hf, List.filter_cons, hc]
            simp
          | rateLimited =>
            have hf : (stepOp o nW bS st (b, OpType.write)).fails = st.fails := by
              unfold stepOp writeStep
              simp [hest, hsub]
            have hc : conflicted o (b, OpType.write) = false := by
              unfold conflicted
              simp [hest, hsub]
            rw [hf, List.filter_cons, hc]
            simp
          | otherError =>
            have hf : (stepOp o nW bS st (b, OpType.write)).fails = st.fails := by
              unfold stepOp writeStep
              simp [hest, hsub]
            have hc : conflicted o (b, OpType.write) = false := by
              unfold conflicted
              simp [hest, hsub]
            rw [hf, List.filter_cons, hc]
            simp

lemma stepOp_trace_mono (o : BlendOracle) (nW bS : ℕ) (st : BlendState)
    (p : ℕ × OpType) (e : Ev) (he : e ∈ st.trace) :
    e ∈ (stepOp o nW bS st p).trace := by
  cases p with
  | mk b ty =>
    cases ty with
    | read =>
      unfold stepOp readStep
      cases (retryWithBackoff (o.readOutcome b) (fun _ => 0) 3 1000).result <;>
        simp [he]
    | write =>
      unfold stepOp writeStep
      cases o.estimateOk b <;> cases o.submit b <;> simp [he]

lemma foldl_fails_payload (o : BlendOracle) (nW bS : ℕ) (ops : List (ℕ × OpType))
    (st : BlendState)
    (hinv : ∀ q ∈ st.fails, Ev.submitWrite q.1 q.2 (o.pendingNonce q.1) ∈ st.trace) :
    ∀ q ∈ (ops.foldl (stepOp o nW bS) st).fails,
      Ev.submitWrite q.1 q.2 (o.pendingNonce q.1) ∈ (ops.foldl (stepOp o nW bS) st).trace := by
  induction ops generalizing st with
  | nil => exact hinv
  | cons p rest ih =>
    rw [List.foldl_cons]
    apply ih
    intro q hq
    cases p with
    | mk b ty =>
      cases ty with
      | read =>
        have hf : (stepOp o nW bS st (b, OpType.read)).fails = st.fails := by
          unfold stepOp readStep
          cases (retryWithBackoff (o.readOutcome b) (fun _ => 0) 3 1000).result <;> rfl
        rw [hf] at hq
        exact stepOp_trace_mono o nW bS st (b, OpType.read) _ (hinv q hq)
      | write =>
        cases hest : o.estimateOk b with
        | false =>
          have hf : (stepOp o nW bS st (b, OpType.write)).fails = st.fails := by
            unfold stepOp
            simp [hest]
          rw [hf] at hq
          exact stepOp_trace_mono o nW bS st (b, OpType.write) _ (hinv q hq)
        | true =>
          cases hsub : o.submit b with
          | nonceConflict =>
            have hf : (stepOp o nW bS st (b, OpType.write)).fails =
                st.fails ++ [(b, bundlePayload nW bS st.sent)] := by
              unfold stepOp writeStep
              simp [hest, hsub]
            have ht : (stepOp o nW bS st (b, OpType.write)).trace =
                st.trace ++ [.fetchNonce b (o.pendingNonce b),
                  .submitWrite b (bundlePayload nW bS st.sent) (o.pendingNonce b)] := by
              unfold stepOp writeStep
              simp [hest, hsub]
            rw [hf] at hq
            rw [ht]
            rcases List.mem_append.mp hq with hq1 | hq2
            · exact List.mem_append_left _ (hinv q hq1)
            · have : q = (b, bundlePayload nW bS st.sent) := by simpa using hq2
              subst this
              simp
          | accepted h =>
            have hf : (stepOp o nW bS st (b, OpType.write)).fails = st.fails := by
              unfold stepOp writeStep
              simp [hest, hsub]
            rw [hf] at hq
            exact stepOp_trace_mono o nW bS st (b, OpType.write) _ (hinv q hq)
          | rateLimited =>
            have hf : (stepOp o nW bS st (b, OpType.write)).fails = st.fails := by
              unfold stepOp writeStep
              simp [hest, hsub]
            rw [hf] at hq
            exact stepOp_trace_mono o nW bS st (b, OpType.write) _ (hinv q hq)
          | otherError =>
            have hf : (stepOp o nW bS st (b, OpType.write)).fails = st.fails := by
              unfold stepOp writeStep
              simp [hest, hsub]
            rw [hf] at hq
            exact stepOp_trace_mono o nW bS st (b, OpType.write) _ (hinv q hq)

def retryHashes (o : BlendOracle) (l : List (ℕ × (ℕ × List ℕ))) : List ℕ :=
  l.filterMap (fun q => if o.retryEstimateOk q.1 then o.retrySubmit q.1 else none)

def retryTrace (o : BlendOracle) (l : List (ℕ × (ℕ × List ℕ))) : List Ev :=
  l.flatMap (fun q =>
    if o.retryEstimateOk q.1 then
      [Ev.retryFetchNonce q.1 (o.retryNonce q.1),
       Ev.retrySubmitWrite q.1 q.2.2 (o.retryNonce q.1)]
    else [])

lemma foldl_retryStep (o : BlendOracle) (l : List (ℕ × (ℕ × List ℕ)))
    (h0 : List ℕ) (t0 : List Ev) :
    l.foldl (retryStep o) (h0, t0) = (h0 ++ retryHashes o l, t0 ++ retryTrace o l) := by
  induction l generalizing h0 t0 with
  | nil => simp [retryHashes, retryTrace]
  | cons q rest ih =>
    rw [List.foldl_cons]
    cases hest : o.retryEstimateOk q.1 with
    | false =>
      have hstep : retryStep o (h0, t0) q = (h0, t0) := by
        unfold retryStep
        simp [hest]
      rw [hstep, ih]
      simp [retryHashes, retryTrace, hest]
    | true =>
      cases hsub : o.retrySubmit q.1 with
      | some h =>
        have hstep : retryStep o (h0, t0) q =
            (h0 ++ [h], t0 ++ [.retryFetchNonce q.1 (o.retryNonce q.1),
              .retrySubmitWrite q.1 q.2.2 (o.retryNonce q.1)]) := by
          unfold retryStep
          simp [hest, hsub]
        rw [hstep, ih]
        simp [retryHashes, retryTrace, hest, hsub]
      | none =>
        have hstep : retryStep o (h0, t0) q =
            (h0, t0 ++ [.retryFetchNonce q.1 (o.retryNonce q.1),
              .retrySubmitWrite q.1 q.2.2 (o.retryNonce q.1)]) := by
          unfold retryStep
          simp [hest, hsub]
        rw [hstep, ih]
        simp [retryHashes, retryTrace, hest, hsub]

lemma retryPhase_eq (o : BlendOracle) (fails : List (ℕ × List ℕ)) :
    retryPhase o fails = (retryHashes o fails.enum, retryTrace o fails.enum) := by
  unfold retryPhase
  rw [foldl_retryStep]
  simp

lemma foldl_fatal_of_benign (o : BlendOracle) (nW bS : ℕ) (ops : List (ℕ × OpType))
    (st : BlendState)
    (hread : ∀ p ∈ ops, p.2 = OpType.read →
      ∃ v, (retryWithBackoff (o.readOutcome p.1) (fun _ => 0) 3 1000).result = .ok v)
    (hwrite : ∀ p ∈ ops, p.2 = OpType.write →
      o.estimateOk p.1 = true ∧ o.submit p.1 ≠ WriteRes.rateLimited) :
    (ops.foldl (stepOp o nW bS) st).fatal = st.fatal := by
  induction ops generalizing st with
  | nil => rfl
  | cons p rest ih =>
    rw [List.foldl_cons]
    rw [ih _ (fun q hq => hread q (List.mem_cons_of_mem p hq))
      (fun q hq => hwrite q (List.mem_cons_of_mem p hq))]
    cases p with
    | mk b ty =>
      cases ty with
      | read =>
        obtain ⟨v, hv⟩ := hread (b, OpType.read) (List.mem_cons_self _ _) rfl
        unfold stepOp readStep
        rw [hv]
      | write =>
        obtain ⟨hest, hsub⟩ := hwrite (b, OpType.write) (List.mem_cons_self _ _) rfl
        unfold stepOp writeStep
        rw [hest]
        cases hs : o.submit b with
        | accepted h => rfl
        | nonceConflict => rfl
        | rateLimited => exact absurd hs hsub
        | otherError => rfl

/-! ## Claim C4: nonce-conflicted writes are requeued exactly once -/

/-- C4: in blend mode, (1) exactly the write ops whose submission hit a
nonce conflict are appended to `failedWrites`, each exactly once and in
order; (2) each queue entry carries the payload that was originally
submitted for that op; (3) the retry pass (lines 341-359) handles each
queue entry exactly once — one fresh nonce fetch followed by one
resubmission with the entry's original payload and that fresh nonce, and a
failed retry is not requeued (the pass produces no new queue); (4) exactly
the hashes of successful retries are appended to `writeTxHashes`, so in a
non-fatal run a conflicted write whose single retry succeeds is counted
among the successful writes of the summary. -/
theorem claim4_nonce_requeue (o : BlendOracle) (numReads numWrites bundleSize : ℕ) :
    (blendState o numReads numWrites bundleSize).fails.map Prod.fst =
      (((shuffledOps o.cmp numReads numWrites).enum.filter (conflicted o)).map Prod.fst) ∧
    (∀ q ∈ (blendState o numReads numWrites bundleSize).fails,
      Ev.submitWrite q.1 q.2 (o.pendingNonce q.1) ∈
        (blendState o numReads numWrites bundleSize).trace) ∧
    retryPhase o (blendState o numReads numWrites bundleSize).fails =
      (retryHashes o (blendState o numReads numWrites bundleSize).fails.enum,
       retryTrace o (blendState o numReads numWrites bundleSize).fails.enum) ∧
    ((blendState o numReads numWrites bundleSize).fatal = false →
      (runBlendFrom o numReads numWrites bundleSize).1 =
        .ok ⟨((blendState o numReads numWrites bundleSize).hashes ++
          retryHashes o (blendState o numReads numWrites bundleSize).fails.enum).length,
          numReads⟩) := by
  refine ⟨?_, ?_, retryPhase_eq o _, ?_⟩
  · have h := foldl_fails_map o numWrites bundleSize
      (shuffledOps o.cmp numReads numWrites).enum initState
    simpa [blendState, opPhase, initState] using h
  · have h := foldl_fails_payload o numWrites bundleSize
      (shuffledOps o.cmp numReads numWrites).enum initState (by simp [initState])
    simpa [blendState, opPhase, initState] using h
  · intro hfatal
    unfold runBlendFrom
    simp only [hfatal, Bool.false_eq_true, if_false, retryPhase_eq]

def oracleC4 : BlendOracle where
  deployed := fun _ => true
  balance := fun _ => 1
  readOutcome := fun _ _ => .success 0
  estimateOk := fun _ => true
  pendingNonce := fun _ => 4
  submit := fun _ => .nonceConflict
  retryEstimateOk := fun _ => true
  retryNonce := fun _ => 5
  retrySubmit := fun _ => some 99
  cmp := fun _ _ => true

/-- C4, witness: one write, which hits a nonce conflict, is retried once
with hash 99 and the summary counts it as the one successful write. -/
theorem claim4_witness : (runBlendFrom oracleC4 0 1 1).1 = .ok ⟨1, 0⟩ := by
  have h := (claim4_nonce_requeue oracleC4 0 1 1).2.2.2 (by decide)
  rw [h]
  rfl

/-! ## Claim C5: which operation failures are fatal to the batch -/

def succeeded (r : Except BatchError BlendSummary) : Bool :=
  match r with
  | .ok _ => true
  | .error _ => false

def oracleC5 : BlendOracle where
  deployed := fun _ => true
  balance := fun _ => 1
  readOutcome := fun _ _ => .rateLimited
  estimateOk := fun _ => true
  pendingNonce := fun _ => 0
  submit := fun _ => .accepted 0
  retryEstimateOk := fun _ => true
  retryNonce := fun _ => 0
  retrySubmit := fun _ => none
  cmp := fun _ _ => true

/-- C5, counterexample: with one deployed, funded account and a batch of a
single read whose every attempt is rate-limited, `retryWithBackoff`
exhausts its 3 attempts, the op rethrows (line 333), `Promise.all` rejects
and `runBatchTest` terminates with an error instead of completing with a
summary — so an individual operation failure IS fatal to the batch. -/
theorem claim5_counterexample :
    (runBlend [5] 1 1 1 oracleC5).1 = .error .opFailed := by
  have hW : numWritesOf 1 1 = 0 := by
    unfold numWritesOf
    norm_num
  have hR : numReadsOf 1 1 = 1 := by
    unfold numReadsOf
    rw [hW]
  have hb : MIN_BALANCE ≤ (1 : ℚ) := by rw [MIN_BALANCE_eq]; decide
  have hstep : runBlend [5] 1 1 1 oracleC5 =
      runBlendFrom oracleC5 (numReadsOf 1 1) (numWritesOf 1 1) 1 := by
    unfold runBlend
    have h2 : ([5].filter (fun a => decide (MIN_BALANCE ≤ oracleC5.balance a))) = [5] :=
      List.filter_eq_self.mpr (fun a _ => decide_eq_true hb)
    simp only [show [5].filter oracleC5.deployed = [5] from rfl, h2, List.isEmpty_cons,
      Bool.false_eq_true, if_false]
  rw [hstep, hR, hW]
  rfl

/-- C5, amended: a nonce-conflicted write and a write rejected with any
error other than a rate limit are caught and recorded (requeued or
skipped) and the batch completes with a summary; but a read whose retries
are exhausted, a rate-limited write submission, and a failed fee
estimation all rethrow out of their task (lines 324 and 331-334), reject
`Promise.all` and terminate the batch without a summary. -/
theorem claim5_amended (accounts : List ℕ) (batchSize bundleSize : ℕ) (readRatio : ℚ)
    (o : BlendOracle) (a : ℕ) (ha : a ∈ accounts) (hdep : o.deployed a = true)
    (hbal : MIN_BALANCE ≤ o.balance a)
    (hread : ∀ b, ∃ v, (retryWithBackoff (o.readOutcome b) (fun _ => 0) 3 1000).result = .ok v)
    (hest : ∀ b, o.estimateOk b = true)
    (hsub : ∀ b, o.submit b ≠ WriteRes.rateLimited) :
    succeeded (runBlend accounts batchSize bundleSize readRatio o).1 = true := by
  unfold runBlend
  have hd1 : a ∈ accounts.filter o.deployed := List.mem_filter.mpr ⟨ha, hdep⟩
  have he1 : (accounts.filter o.deployed).isEmpty = false := by
    cases hl : accounts.filter o.deployed with
    | nil => rw [hl] at hd1; cases hd1
    | cons x xs => rfl
  have hd2 : a ∈ (accounts.filter o.deployed).filter
      (fun x => decide (MIN_BALANCE ≤ o.balance x)) :=
    List.mem_filter.mpr ⟨hd1, decide_eq_true hbal⟩
  have he2 : ((accounts.filter o.deployed).filter
      (fun x => decide (MIN_BALANCE ≤ o.balance x))).isEmpty = false := by
    cases hl : (accounts.filter o.deployed).filter
        (fun x => decide (MIN_BALANCE ≤ o.balance x)) with
    | nil => rw [hl] at hd2; cases hd2
    | cons x xs => rfl
  have hfatal : (blendState o (numReadsOf batchSize readRatio)
      (numWritesOf batchSize readRatio) bundleSize).fatal = false := by
    unfold blendState opPhase
    rw [foldl_fatal_of_benign o _ _ _ initState
      (fun p _ hp2 => hread p.1)
      (fun p _ hp2 => ⟨hest p.1, hsub p.1⟩)]
    rfl
  unfold runBlendFrom
  simp only [he1, he2, hfatal, Bool.false_eq_true, if_false]
  rfl

def oracleC5w : BlendOracle where
  deployed := fun _ => true
  balance := fun _ => 1
  readOutcome := fun _ _ => .success 0
  estimateOk := fun _ => true
  pendingNonce := fun _ => 0
  submit := fun _ => .nonceConflict
  retryEstimateOk := fun _ => true
  retryNonce := fun _ => 1
  retrySubmit := fun _ => none
  cmp := fun _ _ => true

/-- C5, witness for the amended claim: every write hits a nonce conflict
and even its retry fails, yet the batch completes with a summary. -/
theorem claim5_witness : succeeded (runBlend [3] 2 1 (1/2) oracleC5w).1 = true :=
  claim5_amended [3] 2 1 (1/2) oracleC5w 3 (by decide) rfl
    (by show MIN_BALANCE ≤ (1 : ℚ); rw [MIN_BALANCE_eq]; decide)
    (fun b => ⟨0, rfl⟩)
    (fun b => rfl)
    (fun b h => WriteRes.noConfusion h)

/-! ## Claim C6: what the final report counts (rwr mode)

`part_017` rwr branch: the pre-fetch pass performs one `get_balance` read
per account (lines 387-409, errors caught and defaulted), each write task
pushes one tx hash on success and returns null on failure (lines 414-515),
confirmation waits on each hash (errors caught, line 539-557), and one
final `get_balance` read runs per successful write task (lines 565-577,
errors caught and recorded as the string ERROR).  The summary (lines
596-598) sets `actualSuccessfulWrites = writeTxHashes.length` and
`actualSuccessfulReads = actualSuccessfulWrites * 2`. -/

structure RwrOracle where
  prefetchOk : ℕ → Bool
  writeResult : ℕ → Option ℕ
  confirmOk : ℕ → Bool
  finalReadOk : ℕ → Bool

structure RwrReport where
  requestedReads : ℕ
  requestedWrites : ℕ
  successfulWrites : ℕ
  successfulReads : ℕ
  confirmedWrites : ℕ
deriving DecidableEq

def rwrHashes (batchSize : ℕ) (o : RwrOracle) : List ℕ :=
  (List.range batchSize).filterMap o.writeResult

def runRwrReport (numAccounts batchSize : ℕ) (o : RwrOracle) : RwrReport where
  requestedReads := batchSize * 2
  requestedWrites := batchSize
  successfulWrites := (rwrHashes batchSize o).length
  successfulReads := (rwrHashes batchSize o).length * 2
  confirmedWrites := ((List.range (rwrHashes batchSize o).length).filter o.confirmOk).length

/-- The `get_balance` reads of an rwr run that actually returned a value:
the successful pre-fetch reads (one per account) plus the successful
final-balance reads (one per successful write task). -/
def rwrReturnedReads (numAccounts batchSize : ℕ) (o : RwrOracle) : ℕ :=
  ((List.range numAccounts).filter o.prefetchOk).length +
    ((List.range (rwrHashes batchSize o).length).filter o.finalReadOk).length

def oracleC6 : RwrOracle where
  prefetchOk := fun _ => true
  writeResult := fun b => some (b + 10)
  confirmOk := fun _ => true
  finalReadOk := fun _ => true

/-- C6, counterexample: an rwr run over 1 account with `batchSize = 3`
where every remote call succeeds performs 1 + 3 = 4 reads that return,
but the report claims `2 * 3 = 6` successful reads (line 598 derives the
read count from the write count instead of counting reads). -/
theorem claim6_counterexample :
    (runRwrReport 1 3 oracleC6).successfulReads = 6 ∧
    rwrReturnedReads 1 3 oracleC6 = 4 ∧
    (runRwrReport 1 3 oracleC6).successfulReads ≠ rwrReturnedReads 1 3 oracleC6 := by
  decide

lemma length_filterMap_eq (f : ℕ → Option ℕ) (l : List ℕ) :
    (l.filterMap f).length = (l.filter (fun a => (f a).isSome)).length := by
  induction l with
  | nil => rfl
  | cons a rest ih =>
    rw [List.filterMap_cons, List.filter_cons]
    cases hf : f a with
    | none => simpa [hf] using ih
    | some b => simpa [hf] using ih

/-- C6, amended: the reported successful write count equals the number of
write tasks that actually submitted a transaction — never the requested
`batchSize` — but the reported successful read count is derived, not
measured: it is `2 ×` the successful write count in rwr mode (and the
requested read count in blend mode), which can differ from the number of
reads that actually returned. -/
theorem claim6_amended (numAccounts batchSize : ℕ) (o : RwrOracle) :
    (runRwrReport numAccounts batchSize o).successfulWrites =
      ((List.range batchSize).filter (fun b => (o.writeResult b).isSome)).length ∧
    (runRwrReport numAccounts batchSize o).successfulReads =
      2 * (runRwrReport numAccounts batchSize o).successfulWrites ∧
    (runRwrReport numAccounts batchSize o).successfulWrites ≤ batchSize := by
  refine ⟨?_, ?_, ?_⟩
  · unfold runRwrReport rwrHashes
    exact length_filterMap_eq o.writeResult (List.range batchSize)
  · show (rwrHashes batchSize o).length * 2 = 2 * (rwrHashes batchSize o).length
    exact Nat.mul_comm _ 2
  · unfold runRwrReport rwrHashes
    calc ((List.range batchSize).filterMap o.writeResult).length
        ≤ (List.range batchSize).length := List.length_filterMap_le _ _
      _ = batchSize := List.length_range batchSize

/-! ## Claim C10: the Sepolia/optimized variants clamp `batchSize`

`part_018` (`runOptimizedBatchTest`, lines 135-150) and `part_012`
(`runBatchTest`, lines 96-111): after filtering to accounts with at least
`MIN_BALANCE`, the run aborts only when none is left; when fewer than
`batchSize` remain it warns and assigns
`batchSize = sufficientAccounts.length`, then computes the read/write
split from the clamped value. -/

def clampedBatchSize (sufficientCount batchSize : ℕ) : ℕ :=
  if sufficientCount < batchSize then sufficientCount else batchSize

def runOptimizedPlan (accounts : List ℕ) (balance : ℕ → ℚ) (batchSize : ℕ)
    (readRatio : ℚ) : Except BatchError (ℕ × ℕ × ℕ) :=
  let sufficient := accounts.filter (fun a => decide (MIN_BALANCE ≤ balance a))
  if sufficient.isEmpty then .error .noSufficientBalance
  else
    let bs := clampedBatchSize sufficient.length batchSize
    .ok (bs, bs - numWritesOf bs readRatio, numWritesOf bs readRatio)

/-- C10: in the Sepolia/optimized variants, when `0 < sufficient <
batchSize` accounts pass the balance filter, the run does not abort:
`batchSize` is clamped to the number of sufficient accounts before the
read/write split, so the planned reads and writes total `sufficient`,
strictly fewer operations than requested. -/
theorem claim10_clamp (accounts : List ℕ) (balance : ℕ → ℚ) (batchSize : ℕ)
    (readRatio : ℚ) (h0 : 0 ≤ readRatio)
    (hne : accounts.filter (fun a => decide (MIN_BALANCE ≤ balance a)) ≠ [])
    (hlt : (accounts.filter (fun a => decide (MIN_BALANCE ≤ balance a))).length < batchSize) :
    runOptimizedPlan accounts balance batchSize readRatio =
      .ok ((accounts.filter (fun a => decide (MIN_BALANCE ≤ balance a))).length,
        (accounts.filter (fun a => decide (MIN_BALANCE ≤ balance a))).length -
          numWritesOf (accounts.filter (fun a => decide (MIN_BALANCE ≤ balance a))).length
            readRatio,
        numWritesOf (accounts.filter (fun a => decide (MIN_BALANCE ≤ balance a))).length
          readRatio) ∧
    ((accounts.filter (fun a => decide (MIN_BALANCE ≤ balance a))).length -
        numWritesOf (accounts.filter (fun a => decide (MIN_BALANCE ≤ balance a))).length
          readRatio) +
      numWritesOf (accounts.filter (fun a => decide (MIN_BALANCE ≤ balance a))).length
        readRatio =
      (accounts.filter (fun a => decide (MIN_BALANCE ≤ balance a))).length ∧
    (accounts.filter (fun a => decide (MIN_BALANCE ≤ balance a))).length < batchSize := by
  have hclamp : clampedBatchSize
      (accounts.filter (fun a => decide (MIN_BALANCE ≤ balance a))).length batchSize =
      (accounts.filter (fun a => decide (MIN_BALANCE ≤ balance a))).length := by
    unfold clampedBatchSize
    rw [if_pos hlt]
  have hempty : (accounts.filter (fun a => decide (MIN_BALANCE ≤ balance a))).isEmpty =
      false := by
    cases hl : accounts.filter (fun a => decide (MIN_BALANCE ≤ balance a)) with
    | nil => exact absurd hl hne
    | cons x xs => rfl
  refine ⟨?_, ?_, hlt⟩
  · unfold runOptimizedPlan
    simp only [hempty, Bool.false_eq_true, if_false, hclamp]
  · have := numWritesOf_le
      (accounts.filter (fun a => decide (MIN_BALANCE ≤ balance a))).length readRatio h0
    omega

/-- C10, witness: 2 sufficient accounts against a requested `batchSize` of
5 with `readRatio = 0` plan 0 reads and 2 writes — 2 operations, not 5. -/
theorem claim10_witness :
    runOptimizedPlan [1, 2] (fun _ => 1) 5 0 = .ok (2, 0, 2) ∧ (2 : ℕ) < 5 := by
  have hb : MIN_BALANCE ≤ (1 : ℚ) := by rw [MIN_BALANCE_eq]; decide
  have hfil : [1, 2].filter (fun a => decide (MIN_BALANCE ≤ (1 : ℚ))) = [1, 2] :=
    List.filter_eq_self.mpr (fun a _ => decide_eq_true hb)
  have hW : numWritesOf 2 0 = 2 := by
    unfold numWritesOf
    norm_num
    decide
  obtain ⟨h1, -, -⟩ := claim10_clamp [1, 2] (fun _ => 1) 5 0 le_rfl
    (by rw [hfil]; decide) (by rw [hfil]; decide)
  refine ⟨?_, by decide⟩
  rw [h1, hfil]
  norm_num [hW]

/-! ## Claim C7: the bounded-concurrency pool

`p-limit` (the counting limiter used throughout `part_017`) is modelled as
a small-step system over task counts: a waiting task may start only while
fewer than `cap` tasks are running, and a running task may finish at any
time.  The op dispatch of blend mode runs under `pLimit(concurrency)`
(line 248), but the rwr confirmation pass runs under the hardcoded
`pLimit(10)` (line 528: `const confirmLimit = pLimit(10)`), and the
pre-fetch pass (lines 387-409) and the before/after balance sweeps
(lines 245, 361) are not limited at all. -/

structure PoolState where
  waiting : ℕ
  running : ℕ
  done : ℕ
deriving DecidableEq

inductive PoolStep (cap : ℕ) : PoolState → PoolState → Prop where
  | start (w r d : ℕ) (h : r < cap) : PoolStep cap ⟨w + 1, r, d⟩ ⟨w, r + 1, d⟩
  | finish (w r d : ℕ) : PoolStep cap ⟨w, r + 1, d⟩ ⟨w, r, d + 1⟩

def PoolReachable (cap n : ℕ) (s : PoolState) : Prop :=
  Relation.ReflTransGen (PoolStep cap) ⟨n, 0, 0⟩ s

/-- The capacity of the rwr confirmation pool, hardcoded at line 528
independently of the configured `concurrency`. -/
def confirmConcurrency : ℕ := 10

/-- C7, counterexample: with the configured concurrency `c = 5` (the
default of `runBatchTest`), the confirmation pass of an rwr run with 6
submitted transactions can reach a state with 6 simultaneously
outstanding confirmation polls, because that pass uses the hardcoded
`pLimit(10)`, not `pLimit(c)`. -/
theorem claim7_counterexample :
    PoolReachable confirmConcurrency 6 ⟨0, 6, 0⟩ ∧ ¬((6 : ℕ) ≤ 5) := by
  have hc : ∀ r : ℕ, r < 6 → r < confirmConcurrency := by
    unfold confirmConcurrency
    omega
  refine ⟨?_, by decide⟩
  have h1 : PoolStep confirmConcurrency ⟨6, 0, 0⟩ ⟨5, 1, 0⟩ :=
    PoolStep.start 5 0 0 (hc 0 (by omega))
  have h2 : PoolStep confirmConcurrency ⟨5, 1, 0⟩ ⟨4, 2, 0⟩ :=
    PoolStep.start 4 1 0 (hc 1 (by omega))
  have h3 : PoolStep confirmConcurrency ⟨4, 2, 0⟩ ⟨3, 3, 0⟩ :=
    PoolStep.start 3 2 0 (hc 2 (by omega))
  have h4 : PoolStep confirmConcurrency ⟨3, 3, 0⟩ ⟨2, 4, 0⟩ :=
    PoolStep.start 2 3 0 (hc 3 (by omega))
  have h5 : PoolStep confirmConcurrency ⟨2, 4, 0⟩ ⟨1, 5, 0⟩ :=
    PoolStep.start 1 4 0 (hc 4 (by omega))
  have h6 : PoolStep confirmConcurrency ⟨1, 5, 0⟩ ⟨0, 6, 0⟩ :=
    PoolStep.start 0 5 0 (hc 5 (by omega))
  exact .tail (.tail (.tail (.tail (.tail (.tail .refl h1) h2) h3) h4) h5) h6

/-- C7, amended: each individual `p-limit` pool does bound its own tasks —
in every reachable state of a pool with capacity `cap`, at most `cap`
tasks are outstanding, so the blend op dispatch never exceeds the
configured `concurrency`.  The global claim fails because the rwr
confirmation pass uses the hardcoded capacity 10 and the pre-fetch and
balance sweeps use no pool at all: with `concurrency < 10`, more than
`concurrency` remote calls can be outstanding. -/
theorem claim7_amended (cap n : ℕ) (s : PoolState) (h : PoolReachable cap n s) :
    s.running ≤ cap := by
  induction h with
  | refl => exact Nat.zero_le cap
  | tail hsteps hstep ih =>
    cases hstep with
    | start w r d hlt => exact hlt
    | finish w r d => exact le_trans (Nat.le_succ r) ih

/-- C7, witness for the amended claim: the initial pool state with 3
waiting tasks and capacity 2 has at most 2 running tasks. -/
theorem claim7_witness : (⟨3, 0, 0⟩ : PoolState).running ≤ 2 :=
  claim7_amended 2 3 ⟨3, 0, 0⟩ Relation.ReflTransGen.refl

/-! ## Claim C8: (account, nonce) pairs of in-flight writes

Blend mode fetches `getNonce('pending')` and submits with that nonce
(lines 312-313); two concurrent write tasks on the same account (account
reuse happens whenever more ops than accounts exist, line 289) can both
fetch before either submission lands.  The remote ledger is modelled as
the account's next-expected nonce: it accepts a landing submission whose
nonce matches and increments, and rejects any other (the
`Invalid transaction nonce` error); the client's requeue path fetches a
fresh nonce before resubmitting (lines 341-359, modelled by `refetch`).
Two write tasks on one account are modelled; `NonceStep` interleaves
them. -/

inductive TaskPhase where
  | idle
  | gotNonce (n : ℕ)
  | inflight (n : ℕ)
  | accepted (n : ℕ)
  | rejected (n : ℕ)
deriving DecidableEq

structure NonceSys where
  ledger : ℕ
  t1 : TaskPhase
  t2 : TaskPhase
deriving DecidableEq

inductive NonceStep : NonceSys → NonceSys → Prop where
  | fetch1 (L : ℕ) (u : TaskPhase) : NonceStep ⟨L, .idle, u⟩ ⟨L, .gotNonce L, u⟩
  | submit1 (L n : ℕ) (u : TaskPhase) : NonceStep ⟨L, .gotNonce n, u⟩ ⟨L, .inflight n, u⟩
  | landOk1 (L : ℕ) (u : TaskPhase) : NonceStep ⟨L, .inflight L, u⟩ ⟨L + 1, .accepted L, u⟩
  | landErr1 (L n : ℕ) (u : TaskPhase) (hn : n ≠ L) :
      NonceStep ⟨L, .inflight n, u⟩ ⟨L, .rejected n, u⟩
  | refetch1 (L n : ℕ) (u : TaskPhase) : NonceStep ⟨L, .rejected n, u⟩ ⟨L, .gotNonce L, u⟩
  | fetch2 (L : ℕ) (u : TaskPhase) : NonceStep ⟨L, u, .idle⟩ ⟨L, u, .gotNonce L⟩
  | submit2 (L n : ℕ) (u : TaskPhase) : NonceStep ⟨L, u, .gotNonce n⟩ ⟨L, u, .inflight n⟩
  | landOk2 (L : ℕ) (u : TaskPhase) : NonceStep ⟨L, u, .inflight L⟩ ⟨L + 1, u, .accepted L⟩
  | landErr2 (L n : ℕ) (u : TaskPhase) (hn : n ≠ L) :
      NonceStep ⟨L, u, .inflight n⟩ ⟨L, u, .rejected n⟩
  | refetch2 (L n : ℕ) (u : TaskPhase) : NonceStep ⟨L, u, .rejected n⟩ ⟨L, u, .gotNonce L⟩

def NonceReachable (n0 : ℕ) (s : NonceSys) : Prop :=
  Relation.ReflTransGen NonceStep ⟨n0, .idle, .idle⟩ s

/-- True when both modelled write tasks are in flight with the same nonce
on the same account. -/
def sameInflight (s : NonceSys) : Bool :=
  match s.t1, s.t2 with
  | .inflight n, .inflight m => n == m
  | _, _ => false

/-- C8, counterexample: the client does not maintain the claimed
invariant — from a fresh account both write tasks can fetch the pending
nonce 0 before either submits, and then both are simultaneously in flight
with the same (account, nonce) pair. -/
theorem claim8_counterexample :
    NonceReachable 0 ⟨0, .inflight 0, .inflight 0⟩ ∧
    sameInflight ⟨0, .inflight 0, .inflight 0⟩ = true := by
  refine ⟨?_, rfl⟩
  have h1 : NonceStep ⟨0, .idle, .idle⟩ ⟨0, .gotNonce 0, .idle⟩ :=
    NonceStep.fetch1 0 .idle
  have h2 : NonceStep ⟨0, .gotNonce 0, .idle⟩ ⟨0, .gotNonce 0, .gotNonce 0⟩ :=
    NonceStep.fetch2 0 (.gotNonce 0)
  have h3 : NonceStep ⟨0, .gotNonce 0, .gotNonce 0⟩ ⟨0, .inflight 0, .gotNonce 0⟩ :=
    NonceStep.submit1 0 0 (.gotNonce 0)
  have h4 : NonceStep ⟨0, .inflight 0, .gotNonce 0⟩ ⟨0, .inflight 0, .inflight 0⟩ :=
    NonceStep.submit2 0 0 (.inflight 0)
  exact .tail (.tail (.tail (.tail .refl h1) h2) h3) h4

lemma nonce_ledger_inv (n0 : ℕ) (s : NonceSys) (h : NonceReachable n0 s) :
    (∀ n, s.t1 = .accepted n → n < s.ledger) ∧
    (∀ n, s.t2 = .accepted n → n < s.ledger) ∧
    (∀ n, ¬(s.t1 = .accepted n ∧ s.t2 = .accepted n)) := by
  induction h with
  | refl =>
    refine ⟨fun n hn => ?_, fun n hn => ?_, fun n hn => ?_⟩
    · cases hn
    · cases hn
    · cases hn.1
  | tail hsteps hstep ih =>
    obtain ⟨ih1, ih2, ih3⟩ := ih
    cases hstep with
    | fetch1 L u =>
      refine ⟨fun n hn => ?_, fun n hn => ih2 n hn, fun n hn => ?_⟩
      · cases hn
      · cases hn.1
    | submit1 L m u =>
      refine ⟨fun n hn => ?_, fun n hn => ih2 n hn, fun n hn => ?_⟩
      · cases hn
      · cases hn.1
    | landOk1 L u =>
      refine ⟨fun n hn => ?_, fun n hn => ?_, fun n hn => ?_⟩
      · have hLn : TaskPhase.accepted L = TaskPhase.accepted n := hn
        have hEq : L = n := by injection hLn
        show n < L + 1
        omega
      · have h2 : n < L := ih2 n hn
        show n < L + 1
        omega
      · have hLn : TaskPhase.accepted L = TaskPhase.accepted n := hn.1
        have hEq : L = n := by injection hLn
        have h2 : n < L := ih2 n hn.2
        omega
    | landErr1 L m u hm =>
      refine ⟨fun n hn => ?_, fun n hn => ih2 n hn, fun n hn => ?_⟩
      · cases hn
      · cases hn.1
    | refetch1 L m u =>
      refine ⟨fun n hn => ?_, fun n hn => ih2 n hn, fun n hn => ?_⟩
      · cases hn
      · cases hn.1
    | fetch2 L u =>
      refine ⟨fun n hn => ih1 n hn, fun n hn => ?_, fun n hn => ?_⟩
      · cases hn
      · cases hn.2
    | submit2 L m u =>
      refine ⟨fun n hn => ih1 n hn, fun n hn => ?_, fun n hn => ?_⟩
      · cases hn
      · cases hn.2
    | landOk2 L u =>
      refine ⟨fun n hn => ?_, fun n hn => ?_, fun n hn => ?_⟩
      · have h1 : n < L := ih1 n hn
        show n < L + 1
        omega
      · have hLn : TaskPhase.accepted L = TaskPhase.accepted n := hn
        have hEq : L = n := by injection hLn
        show n < L + 1
        omega
      · have hLn : TaskPhase.accepted L = TaskPhase.accepted n := hn.2
        have hEq : L = n := by injection hLn
        have h1 : n < L := ih1 n hn.1
        omega
    | landErr2 L m u hm =>
      refine ⟨fun n hn => ih1 n hn, fun n hn => ?_, fun n hn => ?_⟩
      · cases hn
      · cases hn.2
    | refetch2 L m u =>
      refine ⟨fun n hn => ih1 n hn, fun n hn => ?_, fun n hn => ?_⟩
      · cases hn
      · cases hn.2

/-- C8, amended: the client does not enforce the single-in-flight
invariant (see the counterexample), but the remote ledger accepts at most
one write per (account, nonce) pair — in every reachable state the two
tasks are never both accepted with the same nonce — and a rejected write
can leave its rejected state only through a fresh nonce fetch before
resubmission (the requeue path). -/
theorem claim8_amended (n0 : ℕ) (s : NonceSys) (h : NonceReachable n0 s) :
    (∀ n, ¬(s.t1 = .accepted n ∧ s.t2 = .accepted n)) ∧
    (∀ s' n, NonceStep s s' → s.t1 = .rejected n →
      s'.t1 = .rejected n ∨ s'.t1 = .gotNonce s.ledger) := by
  refine ⟨(nonce_ledger_inv n0 s h).2.2, fun s' n hstep hrej => ?_⟩
  cases hstep with
  | fetch1 L u => rw [show (⟨L, .idle, u⟩ : NonceSys).t1 = .idle from rfl] at hrej; cases hrej
  | submit1 L m u =>
    rw [show (⟨L, .gotNonce m, u⟩ : NonceSys).t1 = .gotNonce m from rfl] at hrej
    cases hrej
  | landOk1 L u =>
    rw [show (⟨L, .inflight L, u⟩ : NonceSys).t1 = .inflight L from rfl] at hrej
    cases hrej
  | landErr1 L m u hm =>
    rw [show (⟨L, .inflight m, u⟩ : NonceSys).t1 = .inflight m from rfl] at hrej
    cases hrej
  | refetch1 L m u => exact Or.inr rfl
  | fetch2 L u => exact Or.inl hrej
  | submit2 L m u => exact Or.inl hrej
  | landOk2 L u => exact Or.inl hrej
  | landErr2 L m u hm => exact Or.inl hrej
  | refetch2 L m u => exact Or.inl hrej

/-- C8, witness for the amended claim, at the initial state of a fresh
account. -/
theorem claim8_witness :
    ¬((⟨0, .idle, .idle⟩ : NonceSys).t1 = .accepted 0 ∧
      (⟨0, .idle, .idle⟩ : NonceSys).t2 = .accepted 0) :=
  (claim8_amended 0 ⟨0, .idle, .idle⟩ Relation.ReflTransGen.refl).1 0

end PerfTest
